import Mathlib

/-!
Verification development for `CompressVideo.py`: a shallow embedding of the
compression decision and dedup pipeline (fingerprint-based skip logic,
encoding-parameter selection from probed stream metadata, transcoder progress
parsing, and the replacement guard), together with theorems settling the
specification's claims about it.

Modelling conventions:
* Machine integers are `Nat`/`Int` (Python integers are unbounded, so no
  wrap-around is involved).
* File contents are abstracted to a `Nat` identity; the MD5 fingerprint
  function (`hashlib`, an external library) is a parameter `fp : Nat → Nat`
  of every definition that hashes.  The code relies only on `fp` being a
  function (same bytes, same fingerprint).
* Subprocess behaviour (ffprobe / ffmpeg) is an explicit input
  (`CompressOutcome`, parsed stream lines, parsed progress lines); the
  Python-side control flow acting on those inputs is translated directly.
* Python's `new_file_size < old_file_size * 0.9` (float literal `0.9`) is
  modelled exactly as `10 * newSize < 9 * oldSize`; the two agree on all
  sizes relevant here, in particular on the spec's 1 000 000 / 899 999 /
  900 001 test values, where the double product `1000000 * 0.9` rounds to
  exactly `900000.0`.
* Exceptions are `Except String`; an uncaught `FileNotFoundError` raised for
  a missing executable is the `.error` case that propagates out of the
  per-file pipeline.
-/

/-- A file as the pipeline observes it: an opaque content identity (standing
for the byte stream), its size in bytes, and its access/modification times
(`os.path.getatime` / `os.path.getmtime`). -/
structure File where
  content : Nat
  size : Nat
  atime : Nat
  mtime : Nat
deriving DecidableEq, Repr

/-- The two paths touched by `compress_and_replace`: the original video's
path (`in_filename`) and the temporary output path (`tmp_filename`). -/
structure FS2 where
  orig : Option File
  tmp : Option File
deriving DecidableEq, Repr

/-- Filesystem operations issued by the replacement guard
(lines 322-359 of `CompressVideo.py`), in the order the code performs them. -/
inductive FsOp where
  | utimeTmp (atime mtime : Nat)
  | removeOrig
  | moveTmpToOrig
  | removeTmp
deriving DecidableEq, Repr

/-- Effect of one filesystem operation on the two-path state:
`os.utime(tmp_filename, (a_time, m_time))`, `os.remove(in_filename)`,
`shutil.move(tmp_filename, in_filename)`, `os.remove(tmp_filename)`. -/
def applyOp (fs : FS2) : FsOp → FS2
  | .utimeTmp a m =>
      { fs with tmp := fs.tmp.map fun f => { f with atime := a, mtime := m } }
  | .removeOrig => { fs with orig := none }
  | .moveTmpToOrig => { orig := fs.tmp, tmp := none }
  | .removeTmp => { fs with tmp := none }

/-- Apply a sequence of filesystem operations in order. -/
def applyOps (fs : FS2) : List FsOp → FS2
  | [] => fs
  | op :: ops => applyOps (applyOp fs op) ops

/-- The replacement guard: the tail of `compress_and_replace`
(lines 322-359) after the transcoder subprocess has exited.  Given the exit
code, the original file and the temporary output file, it returns the
filesystem operations performed, in order, and the boolean result returned
to `hash_and_compress`.  The size comparison `new_file_size < old_file_size
* 0.9` is modelled exactly as `10 * tmp.size < 9 * orig.size`. -/
def guardFinish (exitcode : Int) (orig tmp : File) : List FsOp × Bool :=
  if exitcode ≠ 0 then
    ([.removeTmp], false)
  else if tmp.size > 1024 then
    if 10 * tmp.size < 9 * orig.size then
      ([.utimeTmp orig.atime orig.mtime, .removeOrig, .moveTmpToOrig], true)
    else
      ([.removeTmp], true)
  else
    ([.removeTmp], false)

/-- Codec and CRF quality chosen for a single matched video-stream line
(lines 247-265 of `CompressVideo.py`): default `libx264`/CRF 23; footage
larger than WQHD gets `libx265` with CRF 23 above 30 fps and CRF 25
otherwise; footage larger than FHD or above 30 fps gets `libx264`/CRF 20. -/
def planFor (w h : Nat) (fps : ℚ) : String × String :=
  if w * h > 2560 * 1440 then
    ("libx265", if fps > 30 then "23" else "25")
  else if w * h > 1920 * 1080 ∨ fps > 30 then
    ("libx264", "20")
  else
    ("libx264", "23")

/-- Modelled from the spec's words (§4.3 decision table, first match wins);
to be compared against `planFor`, which is translated from the code. -/
def specPlan (w h : Nat) (fps : ℚ) : String × String :=
  if w * h > 2560 * 1440 ∧ fps > 30 then ("libx265", "23")
  else if w * h > 2560 * 1440 then ("libx265", "25")
  else if w * h > 1920 * 1080 ∨ fps > 30 then ("libx264", "20")
  else ("libx264", "23")

/-- One line of ffprobe's stderr, abstracted to the result of
`re.findall(r"Stream #(\d+:\d+).*Video:.*, (\d+)x(\d+).*, (\d+(\.\d+)?) fps", line)`:
`none` when the line does not match the video-stream pattern, otherwise the
captured `(width, height, fps)`. -/
abbrev StreamLine := Option (Nat × Nat × ℚ)

/-- The probe loop of `compress_and_replace` (lines 233-265): scans the
stderr lines in order; each matching line overwrites `w`, `h`, `fps`,
`codec` and `crf`; the loop `break`s only in the two non-default branches
(area above WQHD, or area above FHD / fps above 30).  `acc` is the state
left by previously scanned lines (`none` while no line has matched); the
result is `none` exactly when `codec` was never set. -/
def probeLoop (acc : Option (Nat × Nat × ℚ × String × String)) :
    List StreamLine → Option (Nat × Nat × ℚ × String × String)
  | [] => acc
  | none :: ls => probeLoop acc ls
  | some (w, h, fps) :: ls =>
    if w * h > 2560 * 1440 then
      some (w, h, fps, "libx265", if fps > 30 then "23" else "25")
    else if w * h > 1920 * 1080 ∨ fps > 30 then
      some (w, h, fps, "libx264", "20")
    else
      probeLoop (some (w, h, fps, "libx264", "23")) ls

/-- The plan a single stream line would select, bundled with its triple;
`probeLoop` returns exactly this value for the line that wins. -/
def lineState (w h : Nat) (fps : ℚ) : Nat × Nat × ℚ × String × String :=
  (w, h, fps, (planFor w h fps).1, (planFor w h fps).2)

/-- A stream line falls in the decision table's default row: neither of the
two `break`ing branches of the probe loop fires on it. -/
def defaultRow (w h : Nat) (fps : ℚ) : Prop :=
  ¬ (w * h > 1920 * 1080 ∨ fps > 30)

/-- Every matching line of the list falls in the default row. -/
def allDefault (ls : List StreamLine) : Prop :=
  ∀ w h fps, some (w, h, fps) ∈ ls → defaultRow w h fps

/-- The last matching line's captured triple, if any line matches. -/
def lastMatch : List StreamLine → Option (Nat × Nat × ℚ)
  | [] => none
  | none :: ls => lastMatch ls
  | some x :: ls =>
    match lastMatch ls with
    | none => some x
    | some y => some y

/-- Model of `time.strptime(timestamp, "%H:%M:%S")` on a two-digit `HH:MM:SS`
timestamp, followed by `tm_sec + tm_min * 60 + tm_hour * 60 * 60`
(`get_seconds`, lines 104-111).  `strptime` accepts hours 00-23, minutes
00-59 and seconds 00-61 (leap seconds) and raises `ValueError` otherwise
(`none` here); the regexes feeding it capture any two digits per field. -/
def get_seconds (hh mm ss : Nat) : Option Nat :=
  if hh ≤ 23 ∧ mm ≤ 59 ∧ ss ≤ 61 then
    some (ss + mm * 60 + hh * 60 * 60)
  else
    none

/-- One line of ffmpeg's stderr, abstracted to the results of the two
regex searches `Duration: (\d\d:\d\d:\d\d)` and `time=(\d\d:\d\d:\d\d)`:
each field is the captured `(HH, MM, SS)` digit triple when the pattern
matches, `none` otherwise. -/
structure ProgressLine where
  duration : Option (Nat × Nat × Nat)
  time : Option (Nat × Nat × Nat)
deriving DecidableEq, Repr

/-- Application of `get_seconds` to a captured digit triple. -/
def getSecondsT (c : Nat × Nat × Nat) : Option Nat :=
  get_seconds c.1 c.2.1 c.2.2

/-- The progress-parsing loop of `compress_and_replace` (lines 297-320):
while `total_time` is falsy (`0`), each line is searched for `Duration:`;
afterwards each line is searched for `time=`, and every match reports
`percent = 100 * current_time // total_time` to the progress bar.  Returns
the final `total_time` and the reported percents in order; `none` models
the uncaught `ValueError` from `time.strptime` on an out-of-range field. -/
def progressLoop (tt : Nat) (acc : List Nat) :
    List ProgressLine → Option (Nat × List Nat)
  | [] => some (tt, acc)
  | l :: ls =>
    if tt = 0 then
      match l.duration with
      | none => progressLoop tt acc ls
      | some c =>
        match getSecondsT c with
        | none => none
        | some t => progressLoop t acc ls
    else
      match l.time with
      | none => progressLoop tt acc ls
      | some c =>
        match getSecondsT c with
        | none => none
        | some cur => progressLoop tt (acc ++ [100 * cur / tt]) ls

/-- A `ProgressLine` carrying only a `time=` match. -/
def timeLine (c : Nat × Nat × Nat) : ProgressLine :=
  { duration := none, time := some c }

/-- Behaviour of the external tools on one file, as observed by
`compress_and_replace` when it runs them.  `probeMissing` / `transMissing`
are `FileNotFoundError` when launching ffprobe / ffmpeg; `noStream` is a
probe whose stderr contains no line matching the video-stream pattern;
`exitNonzero` is a transcoder run ending with a non-zero exit status
(including a terminated one); `exitZero tmp` is a clean exit leaving the
file `tmp` at the temporary path. -/
inductive CompressOutcome where
  | probeMissing
  | transMissing
  | noStream
  | exitNonzero (code : Int)
  | exitZero (tmp : File)
deriving DecidableEq, Repr

/-- Model of `compress_and_replace` (lines 213-359) as a function of the file at the
original path and the external tools' behaviour: returns the file left at
the original path and the boolean result, or the uncaught
`FileNotFoundError` message for a missing executable. -/
def compress_and_replace (f : File) (oc : CompressOutcome) :
    Except String (File × Bool) :=
  match oc with
  | .probeMissing => .error "ffprobe is not available in $PATH"
  | .noStream => .ok (f, false)
  | .transMissing => .error "ffmpeg is not available in $PATH"
  | .exitNonzero _ => .ok (f, false)
  | .exitZero tmp =>
    .ok (((applyOps ⟨some f, some tmp⟩ (guardFinish 0 f tmp).1).orig).getD f,
         (guardFinish 0 f tmp).2)

/-- One candidate file as the batch sees it: the file currently at its path
(`none` when it vanished between scanning and fingerprinting, raising
`FileNotFoundError` at `get_file_fingerprint`) and the external tools'
behaviour should a compression be attempted. -/
structure PerFileInput where
  file : Option File
  outcome : CompressOutcome
deriving DecidableEq, Repr

/-- Result of `hash_and_compress` for one file: the file left at the path,
the updated hash list, the boolean returned to `process_daemon`, and
whether `compress_and_replace` was invoked at all (`false` when the
fingerprint check skipped the file or the file had vanished — no probe and
no transcode were started). -/
structure FileRes where
  file : Option File
  hashList : List Nat
  ok : Bool
  attempted : Bool
deriving DecidableEq, Repr

/-- Model of `hash_and_compress` (lines 182-210): fingerprint the file and skip it
when the fingerprint is already recorded; otherwise run
`compress_and_replace` and, on success, fingerprint the file *now at the
path* and append that fingerprint to the hash list.  `fp` is the MD5
fingerprint function (`get_file_fingerprint`), a parameter of the model. -/
def hash_and_compress (fp : Nat → Nat) (inp : PerFileInput)
    (hl : List Nat) : Except String FileRes :=
  match inp.file with
  | none => .ok ⟨none, hl, false, false⟩
  | some f =>
    if fp f.content ∈ hl then
      .ok ⟨some f, hl, true, false⟩
    else
      match compress_and_replace f inp.outcome with
      | .error e => .error e
      | .ok (f2, true) => .ok ⟨some f2, hl ++ [fp f2.content], true, true⟩
      | .ok (f2, false) => .ok ⟨some f2, hl, false, true⟩

/-- Final label written by `process_daemon`'s `finally` block:
`"aborted"` when the stop flag was set, `"done"` otherwise. -/
inductive BatchStatus where
  | done
  | aborted
deriving DecidableEq, Repr

/-- Result of a batch run: the file left at each candidate's path, the
final hash list, the success and failure counters shown in the progress
label, the number of files on which `compress_and_replace` was invoked,
and the final status label. -/
structure BatchRes where
  files : List (Option File)
  hashList : List Nat
  success : Nat
  failed : Nat
  attempts : Nat
  status : BatchStatus
deriving DecidableEq, Repr

/-- Effect of `process.terminate()` on the in-flight transcode when the
stop flag is observed inside the read loop (lines 301-303): a run that
would have exited cleanly now exits with a non-zero status; runs that were
already failing, and stages before the transcoder launch, are unchanged. -/
def terminateOutcome : CompressOutcome → CompressOutcome
  | .exitZero _ => .exitNonzero (-15)
  | oc => oc

/-- The per-file loop of `process_daemon` (lines 154-167), with the stop
flag modelled cooperatively: `stopAt = some i` means the flag becomes set
while file `i` is being processed, so file `i`'s transcode (if one is
running) is terminated, and the `if parent_window.stop: return` check after
file `i` ends the loop with status `aborted`.  `i` is the index of the
first file of the remaining list; `hl`, `s`, `fl`, `att` accumulate the
hash list, the success and failure counters, and the attempt count. -/
def batchGo (fp : Nat → Nat) (stopAt : Option Nat) :
    Nat → List PerFileInput → List Nat → Nat → Nat → Nat →
    Except String BatchRes
  | _, [], hl, s, fl, att => .ok ⟨[], hl, s, fl, att, .done⟩
  | i, inp :: rest, hl, s, fl, att =>
    let stopHere := stopAt = some i
    let inp2 : PerFileInput :=
      if stopHere then ⟨inp.file, terminateOutcome inp.outcome⟩ else inp
    match hash_and_compress fp inp2 hl with
    | .error e => .error e
    | .ok r =>
      let s2 := if r.ok then s + 1 else s
      let fl2 := if r.ok then fl else fl + 1
      let att2 := if r.attempted then att + 1 else att
      if stopHere then
        .ok ⟨r.file :: rest.map (·.file), r.hashList, s2, fl2, att2, .aborted⟩
      else
        match batchGo fp stopAt (i + 1) rest r.hashList s2 fl2 att2 with
        | .error e => .error e
        | .ok res =>
          .ok ⟨r.file :: res.files, res.hashList, res.success, res.failed,
               res.attempts, res.status⟩

/-- Model of `process_daemon`'s batch over a candidate list, starting from a given
persisted hash list, with counters at zero. -/
def process_daemon (fp : Nat → Nat) (files : List PerFileInput)
    (hl : List Nat) (stopAt : Option Nat) : Except String BatchRes :=
  batchGo fp stopAt 0 files hl 0 0 0

/-- The outcome is a per-file error that `hash_and_compress` converts into
a `false` result: no video-stream metadata, non-zero transcoder exit, or a
clean exit whose output is at most 1024 bytes. -/
def perFileError (oc : CompressOutcome) : Prop :=
  oc = .noStream ∨ (∃ c, oc = .exitNonzero c) ∨
    (∃ tmp, oc = .exitZero tmp ∧ tmp.size ≤ 1024)

/-- The outcome is a missing external tool (`FileNotFoundError` re-raised
at the ffprobe or ffmpeg launch). -/
def toolMissing (oc : CompressOutcome) : Prop :=
  oc = .probeMissing ∨ oc = .transMissing

/-- Prepend one file's final state to a batch result, as the batch loop
does when it continues past a file. -/
def consFile (f : Option File) : Except String BatchRes →
    Except String BatchRes
  | .error e => .error e
  | .ok res => .ok { res with files := f :: res.files }

/-- C1: for a transcode that exits with status 0 and an output larger than
1024 bytes, if `newSize < oldSize * 0.9` the guard copies the original's
access/modification timestamps onto the temporary file, deletes the
original, then moves the temporary file to the original's path; if
`newSize ≥ oldSize * 0.9` it deletes the temporary file and leaves the
original untouched; both outcomes report success. -/
theorem c1_replacement_guard (orig tmp : File) (hbig : 1024 < tmp.size) :
    (10 * tmp.size < 9 * orig.size →
      guardFinish 0 orig tmp =
        ([.utimeTmp orig.atime orig.mtime, .removeOrig, .moveTmpToOrig],
         true) ∧
      applyOps ⟨some orig, some tmp⟩ (guardFinish 0 orig tmp).1 =
        ⟨some ⟨tmp.content, tmp.size, orig.atime, orig.mtime⟩, none⟩) ∧
    (9 * orig.size ≤ 10 * tmp.size →
      guardFinish 0 orig tmp = ([.removeTmp], true) ∧
      applyOps ⟨some orig, some tmp⟩ (guardFinish 0 orig tmp).1 =
        ⟨some orig, none⟩) := by
  constructor
  · intro hlt
    have hg : guardFinish 0 orig tmp =
        ([.utimeTmp orig.atime orig.mtime, .removeOrig, .moveTmpToOrig],
         true) := by
      simp [guardFinish, hbig, hlt]
    refine ⟨hg, ?_⟩
    rw [hg]
    simp [applyOps, applyOp]
  · intro hge
    have hg : guardFinish 0 orig tmp = ([.removeTmp], true) := by
      simp [guardFinish, hbig, not_lt.mpr hge]
    refine ⟨hg, ?_⟩
    rw [hg]
    simp [applyOps, applyOp]

/-- Witness for C1 at the spec's test values: old size 1 000 000 with new
size 899 999 replaces (timestamps copied, original removed, temp moved in),
and with new size 900 001 the original is kept; both report success. -/
theorem c1_replacement_guard_witness :
    1024 < (899999 : Nat) ∧ 10 * 899999 < 9 * 1000000 ∧
    (guardFinish 0 ⟨0, 1000000, 3, 4⟩ ⟨1, 899999, 1, 2⟩ =
        ([.utimeTmp 3 4, .removeOrig, .moveTmpToOrig], true) ∧
      applyOps ⟨some ⟨0, 1000000, 3, 4⟩, some ⟨1, 899999, 1, 2⟩⟩
          (guardFinish 0 ⟨0, 1000000, 3, 4⟩ ⟨1, 899999, 1, 2⟩).1 =
        ⟨some ⟨1, 899999, 3, 4⟩, none⟩) ∧
    1024 < (900001 : Nat) ∧ 9 * 1000000 ≤ 10 * 900001 ∧
    (guardFinish 0 ⟨0, 1000000, 3, 4⟩ ⟨1, 900001, 1, 2⟩ =
        ([.removeTmp], true) ∧
      applyOps ⟨some ⟨0, 1000000, 3, 4⟩, some ⟨1, 900001, 1, 2⟩⟩
          (guardFinish 0 ⟨0, 1000000, 3, 4⟩ ⟨1, 900001, 1, 2⟩).1 =
        ⟨some ⟨0, 1000000, 3, 4⟩, none⟩) :=
  ⟨by decide, by decide,
   (c1_replacement_guard ⟨0, 1000000, 3, 4⟩ ⟨1, 899999, 1, 2⟩
      (by decide)).1 (by decide),
   by decide, by decide,
   (c1_replacement_guard ⟨0, 1000000, 3, 4⟩ ⟨1, 900001, 1, 2⟩
      (by decide)).2 (by decide)⟩

/-- C2: a transcode that exits with status 0 but leaves an output of at
most 1024 bytes (1024 included) makes the guard delete the temporary file,
leave the original untouched, and report failure. -/
theorem c2_minimum_size_guard (orig tmp : File) (hsmall : tmp.size ≤ 1024) :
    guardFinish 0 orig tmp = ([.removeTmp], false) ∧
    applyOps ⟨some orig, some tmp⟩ (guardFinish 0 orig tmp).1 =
      ⟨some orig, none⟩ := by
  have hg : guardFinish 0 orig tmp = ([.removeTmp], false) := by
    simp [guardFinish, not_lt.mpr hsmall]
  refine ⟨hg, ?_⟩
  rw [hg]
  simp [applyOps, applyOp]

/-- Witness for C2 at the boundary: output size exactly 1024 is a failure,
the temporary file is removed and the original stays. -/
theorem c2_minimum_size_guard_witness :
    (1024 : Nat) ≤ 1024 ∧
    (guardFinish 0 ⟨0, 1000000, 3, 4⟩ ⟨1, 1024, 1, 2⟩ =
        ([.removeTmp], false) ∧
      applyOps ⟨some ⟨0, 1000000, 3, 4⟩, some ⟨1, 1024, 1, 2⟩⟩
          (guardFinish 0 ⟨0, 1000000, 3, 4⟩ ⟨1, 1024, 1, 2⟩).1 =
        ⟨some ⟨0, 1000000, 3, 4⟩, none⟩) :=
  ⟨by decide,
   c2_minimum_size_guard ⟨0, 1000000, 3, 4⟩ ⟨1, 1024, 1, 2⟩ (by decide)⟩

/-- C3: for every positive probed (width, height, fps) triple, the per-line
encoding choice of the code is total, deterministic, and agrees with the
spec's decision table evaluated first-match-first. -/
theorem c3_encoding_policy (w h : Nat) (fps : ℚ)
    (hw : 0 < w) (hh : 0 < h) (hfps : 0 < fps) :
    planFor w h fps = specPlan w h fps := by
  unfold planFor specPlan
  by_cases h1 : w * h > 2560 * 1440 <;>
    by_cases h2 : fps > 30 <;>
    by_cases h3 : w * h > 1920 * 1080 ∨ fps > 30 <;>
    simp [h1, h2, h3]

/-- Witness for C3 at the spec's example `plan(1920,1080,25)`. -/
theorem c3_encoding_policy_witness :
    0 < (1920 : Nat) ∧ 0 < (1080 : Nat) ∧ 0 < (25 : ℚ) ∧
    planFor 1920 1080 25 = specPlan 1920 1080 25 :=
  ⟨by decide, by decide, by norm_num,
   c3_encoding_policy 1920 1080 25 (by decide) (by decide) (by norm_num)⟩

/-- Once a scanned line hits a `break`ing branch (area above FHD or fps
above 30), the probe loop returns that line's state, whatever default-row
matches preceded it and whatever lines follow. -/
theorem probeLoop_break_wins (pre : List StreamLine) :
    ∀ (acc : Option (Nat × Nat × ℚ × String × String)) (w hgt : Nat)
      (fps : ℚ) (rest : List StreamLine), allDefault pre →
      (w * hgt > 1920 * 1080 ∨ fps > 30) →
      probeLoop acc (pre ++ some (w, hgt, fps) :: rest) =
        some (lineState w hgt fps) := by
  induction pre with
  | nil =>
    intro acc w hgt fps rest _ hbr
    rw [List.nil_append]
    by_cases h1 : w * hgt > 2560 * 1440
    · simp [probeLoop, h1, lineState, planFor]
    · simp [probeLoop, h1, hbr, lineState, planFor]
  | cons l pre ih =>
    intro acc w hgt fps rest hall hbr
    match l with
    | none =>
      rw [List.cons_append]
      show probeLoop acc (pre ++ some (w, hgt, fps) :: rest) = _
      exact ih acc w hgt fps rest
        (fun a b c hm => hall a b c (List.mem_cons_of_mem _ hm)) hbr
    | some (w', h', f') =>
      have h2 : ¬ (w' * h' > 1920 * 1080 ∨ f' > 30) :=
        hall w' h' f' (List.mem_cons_self _ _)
      have h1 : ¬ (w' * h' > 2560 * 1440) := fun hc =>
        h2 (Or.inl (lt_trans (by norm_num) hc))
      rw [List.cons_append]
      show probeLoop acc (some (w', h', f') :: (pre ++ _)) = _
      rw [show probeLoop acc (some (w', h', f') :: (pre ++
            some (w, hgt, fps) :: rest)) =
          probeLoop (some (w', h', f', "libx264", "23"))
            (pre ++ some (w, hgt, fps) :: rest) from by
        simp [probeLoop, h1, h2]]
      exact ih _ w hgt fps rest
        (fun a b c hm => hall a b c (List.mem_cons_of_mem _ hm)) hbr

/-- While every matching line falls in the default row, the probe loop
keeps overwriting its state: the result is the last match's state, or the
incoming state if no line matches. -/
theorem probeLoop_all_default (ls : List StreamLine) :
    ∀ acc, allDefault ls →
      probeLoop acc ls =
        (match lastMatch ls with
         | none => acc
         | some x => some (lineState x.1 x.2.1 x.2.2)) := by
  induction ls with
  | nil => intro acc _; simp [probeLoop, lastMatch]
  | cons l ls ih =>
    intro acc hall
    match l with
    | none =>
      show probeLoop acc ls = _
      rw [ih acc (fun a b c hm => hall a b c (List.mem_cons_of_mem _ hm))]
      rfl
    | some (w', h', f') =>
      have h2 : ¬ (w' * h' > 1920 * 1080 ∨ f' > 30) :=
        hall w' h' f' (List.mem_cons_self _ _)
      have h1 : ¬ (w' * h' > 2560 * 1440) := fun hc =>
        h2 (Or.inl (lt_trans (by norm_num) hc))
      rw [show probeLoop acc (some (w', h', f') :: ls) =
          probeLoop (some (w', h', f', "libx264", "23")) ls from by
        simp [probeLoop, h1, h2]]
      rw [ih _ (fun a b c hm => hall a b c (List.mem_cons_of_mem _ hm))]
      cases hlm : lastMatch ls with
      | none => simp [lastMatch, hlm, lineState, planFor, h1, h2]
      | some y => simp [lastMatch, hlm]

/-- C4 counterexample: on prober output whose first matching stream line is
1920x1080 at 25 fps (default row, no `break`) and whose second matching
line is 3840x2160 at 25 fps, the probe loop selects the *second* line's
plan (`libx265`, CRF 25), not the first matching line's. -/
theorem c4_counterexample :
    probeLoop none [some (1920, 1080, 25), some (3840, 2160, 25)] =
      some (3840, 2160, 25, "libx265", "25") ∧
    probeLoop none [some (1920, 1080, 25), some (3840, 2160, 25)] ≠
      some (lineState 1920 1080 25) := by
  constructor
  · norm_num [probeLoop]
  · norm_num [probeLoop, lineState, planFor]

/-- C4 amended: the (width, height, fps) used to select the plan are those
of the first matching line whose area exceeds 1920x1080 or whose fps
exceeds 30 (a `break`ing row); when every matching line falls in the
default row, the *last* matching line's triple is used (each default match
overwrites the previous one), and no line matching at all yields no plan. -/
theorem c4_stream_selection :
    (∀ (pre rest : List StreamLine) (w hgt : Nat) (fps : ℚ),
        allDefault pre → (w * hgt > 1920 * 1080 ∨ fps > 30) →
        probeLoop none (pre ++ some (w, hgt, fps) :: rest) =
          some (lineState w hgt fps)) ∧
    (∀ ls : List StreamLine, allDefault ls →
        probeLoop none ls =
          (match lastMatch ls with
           | none => none
           | some x => some (lineState x.1 x.2.1 x.2.2))) :=
  ⟨fun pre rest w hgt fps hall hbr =>
     probeLoop_break_wins pre none w hgt fps rest hall hbr,
   fun ls hall => probeLoop_all_default ls none hall⟩

/-- Witness for C4 (amended) on the counterexample's input: the first
matching line 1920x1080@25 is a default row, the second line 3840x2160@25
hits a breaking row, and the loop returns the second line's state. -/
theorem c4_stream_selection_witness :
    allDefault [some (1920, 1080, 25)] ∧
    ((3840 * 2160 > 1920 * 1080) ∨ ((25 : ℚ) > 30)) ∧
    probeLoop none ([some (1920, 1080, 25)] ++ some (3840, 2160, 25) :: []) =
      some (lineState 3840 2160 25) := by
  have hall : allDefault [some (1920, 1080, (25 : ℚ))] := by
    intro a b c hm
    simp only [List.mem_singleton, Option.some.injEq, Prod.mk.injEq] at hm
    obtain ⟨ha, hb, hc⟩ := hm
    subst ha; subst hb; subst hc
    norm_num [defaultRow]
  refine ⟨hall, Or.inl (by norm_num), ?_⟩
  exact c4_stream_selection.1 [some (1920, 1080, 25)] [] 3840 2160 25 hall
    (Or.inl (by norm_num))

/-- Once `total_time` is set to a positive value, a run of `time=` lines
whose timestamps all parse reports exactly one percent per line, namely
`100 * current_seconds / total_seconds`, appended in order. -/
theorem progressLoop_times (curs : List (Nat × Nat × Nat)) :
    ∀ (vals : List Nat) (tt : Nat) (acc : List Nat), 0 < tt →
      curs.map getSecondsT = vals.map some →
      progressLoop tt acc (curs.map timeLine) =
        some (tt, acc ++ vals.map fun v => 100 * v / tt) := by
  induction curs with
  | nil =>
    intro vals tt acc htt hp
    cases vals with
    | nil => simp [progressLoop]
    | cons v vs => simp at hp
  | cons c cs ih =>
    intro vals tt acc htt hp
    cases vals with
    | nil => simp at hp
    | cons v vs =>
      simp only [List.map_cons, List.cons.injEq] at hp
      obtain ⟨hc, hcs⟩ := hp
      have htne : ¬ tt = 0 := by omega
      simp only [List.map_cons, progressLoop, timeLine, if_neg htne, hc]
      rw [ih vs tt (acc ++ [100 * v / tt]) htt hcs]
      simp

/-- Dividing a scaled non-decreasing sequence preserves monotonicity. -/
theorem chain_le_of_chain_lt (vals : List Nat) (t : Nat)
    (hinc : List.Chain' (· < ·) vals) :
    List.Chain' (· ≤ ·) (vals.map fun v => 100 * v / t) := by
  rw [List.chain'_map]
  exact hinc.imp fun a b hab =>
    Nat.div_le_div_right (Nat.mul_le_mul_left 100 (le_of_lt hab))

/-- C9 counterexample: the transcoder output `Duration: 00:10:00` followed
by the single strictly increasing `time=00:01:00` (not exceeding the
duration) reports exactly one percent, 10, so the reported percents never
reach 100 — contradicting the claim as stated. -/
theorem c9_counterexample :
    progressLoop 0 [] [⟨some (0, 10, 0), none⟩, timeLine (0, 1, 0)] =
      some (600, [10]) ∧ (100 : Nat) ∉ ([10] : List Nat) := by
  constructor
  · decide
  · decide

/-- C9 amended: for transcoder output of one `Duration: HH:MM:SS` line
whose timestamp parses to a positive total, followed by `time=` lines whose
timestamps parse to strictly increasing values not exceeding the total and
whose *last value equals the total*, every reported percent equals
`100 * current_seconds // total_seconds`, the reported sequence is
non-decreasing, and percent 100 is reported at or before the final line. -/
theorem c9_progress (d : Nat × Nat × Nat) (t : Nat)
    (curs : List (Nat × Nat × Nat)) (vals : List Nat)
    (hd : getSecondsT d = some t) (ht : 0 < t)
    (hp : curs.map getSecondsT = vals.map some)
    (hinc : List.Chain' (· < ·) vals)
    (hub : ∀ v ∈ vals, v ≤ t)
    (hne : vals ≠ [])
    (hlast : vals.getLast hne = t) :
    progressLoop 0 [] (⟨some d, none⟩ :: curs.map timeLine) =
      some (t, vals.map fun v => 100 * v / t) ∧
    List.Chain' (· ≤ ·) (vals.map fun v => 100 * v / t) ∧
    (100 : Nat) ∈ vals.map fun v => 100 * v / t := by
  refine ⟨?_, chain_le_of_chain_lt vals t hinc, ?_⟩
  · have hstep : progressLoop 0 [] (⟨some d, none⟩ :: curs.map timeLine) =
        progressLoop t [] (curs.map timeLine) := by
      simp [progressLoop, hd]
    rw [hstep, progressLoop_times curs vals t [] ht hp]
    simp
  · have hmem : t ∈ vals := hlast ▸ List.getLast_mem hne
    have himg : (fun v => 100 * v / t) t ∈ vals.map fun v => 100 * v / t :=
      List.mem_map_of_mem _ hmem
    simpa [Nat.mul_div_cancel _ ht] using himg

/-- Witness for C9 (amended): `Duration: 00:10:00` then `time=00:05:00`
and `time=00:10:00` report percents 50 and 100, non-decreasing, ending
at 100. -/
theorem c9_progress_witness :
    getSecondsT (0, 10, 0) = some 600 ∧ 0 < 600 ∧
    ([(0, 5, 0), (0, 10, 0)] : List (Nat × Nat × Nat)).map getSecondsT =
      ([300, 600] : List Nat).map some ∧
    List.Chain' (· < ·) ([300, 600] : List Nat) ∧
    (∀ v ∈ ([300, 600] : List Nat), v ≤ 600) ∧
    (([300, 600] : List Nat) ≠ []) ∧
    ([300, 600] : List Nat).getLast (by decide) = 600 ∧
    (progressLoop 0 [] (⟨some (0, 10, 0), none⟩ ::
        ([(0, 5, 0), (0, 10, 0)] : List (Nat × Nat × Nat)).map timeLine) =
      some (600, ([300, 600] : List Nat).map fun v => 100 * v / 600) ∧
     List.Chain' (· ≤ ·)
       (([300, 600] : List Nat).map fun v => 100 * v / 600) ∧
     (100 : Nat) ∈ ([300, 600] : List Nat).map fun v => 100 * v / 600) := by
  refine ⟨by decide, by decide, by decide,
    by norm_num [List.chain'_cons], by decide, by decide, by decide, ?_⟩
  exact c9_progress (0, 10, 0) 600 [(0, 5, 0), (0, 10, 0)] [300, 600]
    (by decide) (by decide) (by decide) (by norm_num [List.chain'_cons])
    (by decide) (by decide) (by decide)

/-- C10: `get_seconds` is partial: an `HH:MM:SS` timestamp with hour field
at least 24 (which the two-digit regexes can match, e.g. `25:00:00`) makes
it raise instead of returning a second count, so the progress parser fails
when such a timestamp appears as the duration or as a position; for
hour ≤ 23, minute ≤ 59, second ≤ 59 it returns
`hour * 3600 + minute * 60 + second`. -/
theorem c10_get_seconds_domain (hh mm ss : Nat) :
    (24 ≤ hh → get_seconds hh mm ss = none) ∧
    (hh ≤ 23 → mm ≤ 59 → ss ≤ 59 →
      get_seconds hh mm ss = some (hh * 3600 + mm * 60 + ss)) ∧
    (∀ ls, 24 ≤ hh →
      progressLoop 0 [] (⟨some (hh, mm, ss), none⟩ :: ls) = none) ∧
    (∀ t ls, 0 < t → 24 ≤ hh →
      progressLoop t [] (timeLine (hh, mm, ss) :: ls) = none) := by
  have hnone : 24 ≤ hh → get_seconds hh mm ss = none := by
    intro h24
    rw [get_seconds, if_neg]
    rintro ⟨h1, -, -⟩
    omega
  refine ⟨hnone, ?_, ?_, ?_⟩
  · intro h1 h2 h3
    rw [get_seconds, if_pos ⟨h1, h2, by omega⟩]
    congr 1
    ring
  · intro ls h24
    simp [progressLoop, getSecondsT, hnone h24]
  · intro t ls ht h24
    have htne : ¬ t = 0 := by omega
    simp [progressLoop, timeLine, htne, getSecondsT, hnone h24]

/-- Witness for C10: hour 25 fails (also through the progress parser, as a
duration and as a position), hour 23:59:59 yields 86399 seconds. -/
theorem c10_get_seconds_domain_witness :
    24 ≤ 25 ∧ get_seconds 25 0 0 = none ∧
    get_seconds 23 59 59 = some (23 * 3600 + 59 * 60 + 59) ∧
    progressLoop 0 [] [⟨some (25, 0, 0), none⟩] = none ∧
    progressLoop 600 [] [timeLine (25, 0, 0)] = none := by
  refine ⟨by decide, (c10_get_seconds_domain 25 0 0).1 (by decide), ?_, ?_, ?_⟩
  · exact (c10_get_seconds_domain 23 59 59).2.1 (by decide) (by decide)
      (by decide)
  · exact (c10_get_seconds_domain 25 0 0).2.2.1 [] (by decide)
  · exact (c10_get_seconds_domain 25 0 0).2.2.2 600 [] (by decide) (by decide)

/-- A vanished source file raises `FileNotFoundError` at fingerprinting,
which `hash_and_compress` catches and turns into a plain failure; nothing
is attempted and the hash list is unchanged. -/
theorem hac_vanished (fp : Nat → Nat) (inp : PerFileInput) (hl : List Nat)
    (hf : inp.file = none) :
    hash_and_compress fp inp hl = .ok ⟨none, hl, false, false⟩ := by
  simp [hash_and_compress, hf]

/-- A file whose fingerprint is already recorded is skipped: success, no
probe, no transcode, hash list unchanged. -/
theorem hac_skip (fp : Nat → Nat) (inp : PerFileInput) (hl : List Nat)
    (f : File) (hf : inp.file = some f) (hmem : fp f.content ∈ hl) :
    hash_and_compress fp inp hl = .ok ⟨some f, hl, true, false⟩ := by
  simp [hash_and_compress, hf, hmem]

/-- A per-file error (no stream, non-zero exit, too-small output) is
converted into a `false` result; the original file and the hash list are
untouched, and the attempt is recorded. -/
theorem hac_perFileError (fp : Nat → Nat) (inp : PerFileInput)
    (hl : List Nat) (f : File) (hf : inp.file = some f)
    (hnm : fp f.content ∉ hl) (herr : perFileError inp.outcome) :
    hash_and_compress fp inp hl = .ok ⟨some f, hl, false, true⟩ := by
  rcases herr with hoc | ⟨c, hoc⟩ | ⟨tmp, hoc, hsz⟩
  · simp [hash_and_compress, hf, hnm, compress_and_replace, hoc]
  · simp [hash_and_compress, hf, hnm, compress_and_replace, hoc]
  · simp [hash_and_compress, hf, hnm, compress_and_replace, hoc, guardFinish,
      not_lt.mpr hsz, applyOps, applyOp]

/-- A missing ffprobe or ffmpeg executable makes `hash_and_compress`
re-raise `FileNotFoundError`, which nothing in the per-file pipeline
catches. -/
theorem hac_toolMissing (fp : Nat → Nat) (inp : PerFileInput)
    (hl : List Nat) (f : File) (hf : inp.file = some f)
    (hnm : fp f.content ∉ hl) (htm : toolMissing inp.outcome) :
    ∃ e, hash_and_compress fp inp hl = .error e := by
  rcases htm with hoc | hoc
  · exact ⟨"ffprobe is not available in $PATH",
      by simp [hash_and_compress, hf, hnm, compress_and_replace, hoc]⟩
  · exact ⟨"ffmpeg is not available in $PATH",
      by simp [hash_and_compress, hf, hnm, compress_and_replace, hoc]⟩

/-- Characterization of `hash_and_compress`'s hash-list update: on failure
the hash list is unchanged; on success there is a file at the path and
either it was skipped because its fingerprint was already recorded, or the
fingerprint of the file *now at the path* was appended. -/
theorem hac_spec (fp : Nat → Nat) (inp : PerFileInput) (hl : List Nat)
    (r : FileRes) (h : hash_and_compress fp inp hl = .ok r) :
    (r.ok = false → r.hashList = hl) ∧
    (r.ok = true → ∃ f, r.file = some f ∧
      ((fp f.content ∈ hl ∧ r.hashList = hl) ∨
       r.hashList = hl ++ [fp f.content])) := by
  obtain ⟨file, oc⟩ := inp
  cases file with
  | none =>
    rw [hac_vanished fp ⟨none, oc⟩ hl rfl] at h
    cases h
    simp
  | some f =>
    by_cases hmem : fp f.content ∈ hl
    · rw [hac_skip fp ⟨some f, oc⟩ hl f rfl hmem] at h
      cases h
      exact ⟨by simp, fun _ => ⟨f, rfl, Or.inl ⟨hmem, rfl⟩⟩⟩
    · cases oc with
      | probeMissing =>
        simp [hash_and_compress, hmem, compress_and_replace] at h
      | transMissing =>
        simp [hash_and_compress, hmem, compress_and_replace] at h
      | noStream =>
        rw [hac_perFileError fp ⟨some f, .noStream⟩ hl f rfl hmem
          (Or.inl rfl)] at h
        cases h
        simp
      | exitNonzero c =>
        rw [hac_perFileError fp ⟨some f, .exitNonzero c⟩ hl f rfl hmem
          (Or.inr (Or.inl ⟨c, rfl⟩))] at h
        cases h
        simp
      | exitZero tmp =>
        by_cases hsz : tmp.size > 1024
        · by_cases hred : 10 * tmp.size < 9 * f.size
          · simp only [hash_and_compress, if_neg hmem, compress_and_replace,
              guardFinish, if_pos hsz, if_pos hred, if_neg (by decide :
                ¬ ((0 : Int) ≠ 0)), applyOps, applyOp, Option.map_some,
              Option.getD_some] at h
            cases h
            refine ⟨by simp, fun _ => ⟨_, rfl, Or.inr rfl⟩⟩
          · simp only [hash_and_compress, if_neg hmem, compress_and_replace,
              guardFinish, if_pos hsz, if_neg hred, if_neg (by decide :
                ¬ ((0 : Int) ≠ 0)), applyOps, applyOp, Option.map_some,
              Option.getD_some] at h
            cases h
            refine ⟨by simp, fun _ => ⟨f, rfl, Or.inr rfl⟩⟩
        · rw [hac_perFileError fp ⟨some f, .exitZero tmp⟩ hl f rfl hmem
            (Or.inr (Or.inr ⟨tmp, rfl, by omega⟩))] at h
          cases h
          simp

/-- C5 counterexample: with fingerprint function `id`, original file of
content 0 and size 1 000 000, and a clean transcode producing content 1 of
size 2000, the pipeline replaces the original and appends fingerprint 1 —
the fingerprint of the *new* bytes — while the original's pre-transcode
fingerprint 0 is not recorded. -/
theorem c5_counterexample :
    hash_and_compress id ⟨some ⟨0, 1000000, 3, 4⟩, .exitZero ⟨1, 2000, 1, 2⟩⟩
        [] = .ok ⟨some ⟨1, 2000, 3, 4⟩, [1], true, true⟩ ∧
    id (0 : Nat) ∉ ([1] : List Nat) := by
  constructor
  · rfl
  · decide

/-- C5 amended: on success the fingerprint appended to the store is that of
the file at the original's path *after* the pipeline (the replacement's
bytes when replaced; the unchanged original's bytes when kept or skipped,
the skip adding nothing); on failure no fingerprint is added. -/
theorem c5_fingerprint_recorded (fp : Nat → Nat) (inp : PerFileInput)
    (hl : List Nat) (r : FileRes)
    (h : hash_and_compress fp inp hl = .ok r) :
    (r.ok = false → r.hashList = hl) ∧
    (r.ok = true → ∃ f, r.file = some f ∧
      ((fp f.content ∈ hl ∧ r.hashList = hl) ∨
       r.hashList = hl ++ [fp f.content])) :=
  hac_spec fp inp hl r h

/-- Witness for C5 (amended) on a kept-original success: the fingerprint
appended is that of the (unchanged) file at the path. -/
theorem c5_fingerprint_recorded_witness :
    hash_and_compress id ⟨some ⟨5, 100, 0, 0⟩, .exitZero ⟨6, 2000, 0, 0⟩⟩ [] =
      .ok ⟨some ⟨5, 100, 0, 0⟩, [5], true, true⟩ ∧
    ((true = false → ([5] : List Nat) = []) ∧
     (true = true → ∃ f, (some ⟨5, 100, 0, 0⟩ : Option File) = some f ∧
       ((id f.content ∈ ([] : List Nat) ∧ ([5] : List Nat) = []) ∨
        ([5] : List Nat) = [] ++ [id f.content]))) := by
  have h : hash_and_compress id
      ⟨some ⟨5, 100, 0, 0⟩, .exitZero ⟨6, 2000, 0, 0⟩⟩ [] =
      .ok ⟨some ⟨5, 100, 0, 0⟩, [5], true, true⟩ := by rfl
  exact ⟨h, c5_fingerprint_recorded id _ [] _ h⟩

/-- Unfolding of one batch step when no stop was requested and the
per-file pipeline raised: the exception propagates. -/
theorem batchGo_none_cons_err (fp : Nat → Nat) (i : Nat)
    (inp : PerFileInput) (rest : List PerFileInput) (hl : List Nat)
    (s fl att : Nat) (e : String)
    (hh : hash_and_compress fp inp hl = .error e) :
    batchGo fp none i (inp :: rest) hl s fl att = .error e := by
  have hne : ¬ ((none : Option Nat) = some i) := by simp
  simp only [batchGo, if_neg hne, hh]

/-- Unfolding of one batch step when no stop was requested and the
per-file pipeline returned: the loop continues on the remaining files with
updated counters, prepending this file's final state. -/
theorem batchGo_none_cons_ok (fp : Nat → Nat) (i : Nat)
    (inp : PerFileInput) (rest : List PerFileInput) (hl : List Nat)
    (s fl att : Nat) (r : FileRes)
    (hh : hash_and_compress fp inp hl = .ok r) :
    batchGo fp none i (inp :: rest) hl s fl att =
      consFile r.file (batchGo fp none (i + 1) rest r.hashList
        (if r.ok then s + 1 else s) (if r.ok then fl else fl + 1)
        (if r.attempted then att + 1 else att)) := by
  have hne : ¬ ((none : Option Nat) = some i) := by simp
  simp only [batchGo, if_neg hne, hh]
  cases hb : batchGo fp none (i + 1) rest r.hashList
      (if r.ok then s + 1 else s) (if r.ok then fl else fl + 1)
      (if r.attempted then att + 1 else att) with
  | error e => simp [consFile, hb]
  | ok res => simp [consFile, hb]

/-- Unfolding of the batch step during which the stop flag is observed:
the in-flight outcome is terminated, the loop does not continue past the
current file, and the final status is `aborted`. -/
theorem batchGo_stop_cons (fp : Nat → Nat) (i : Nat) (inp : PerFileInput)
    (rest : List PerFileInput) (hl : List Nat) (s fl att : Nat) :
    batchGo fp (some i) i (inp :: rest) hl s fl att =
      (match hash_and_compress fp ⟨inp.file, terminateOutcome inp.outcome⟩
          hl with
       | .error e => .error e
       | .ok r =>
         .ok ⟨r.file :: rest.map (·.file), r.hashList,
              (if r.ok then s + 1 else s), (if r.ok then fl else fl + 1),
              (if r.attempted then att + 1 else att), .aborted⟩) := by
  simp only [batchGo, eq_self_iff_true, if_true]

/-- The failure counter never decreases over a batch run. -/
theorem batchGo_failed_le (fp : Nat → Nat) (ls : List PerFileInput) :
    ∀ i hl s fl att res, batchGo fp none i ls hl s fl att = .ok res →
      fl ≤ res.failed := by
  induction ls with
  | nil =>
    intro i hl s fl att res h
    simp only [batchGo, Except.ok.injEq] at h
    rw [← h]
  | cons inp rest ih =>
    intro i hl s fl att res h
    cases hh : hash_and_compress fp inp hl with
    | error e =>
      rw [batchGo_none_cons_err fp i inp rest hl s fl att e hh] at h
      cases h
    | ok r =>
      rw [batchGo_none_cons_ok fp i inp rest hl s fl att r hh] at h
      cases hb : batchGo fp none (i + 1) rest r.hashList
          (if r.ok then s + 1 else s) (if r.ok then fl else fl + 1)
          (if r.attempted then att + 1 else att) with
      | error e => rw [hb] at h; simp [consFile] at h
      | ok res2 =>
        rw [hb] at h
        simp only [consFile, Except.ok.injEq] at h
        have h2 := ih (i + 1) r.hashList _ _ _ res2 hb
        have h3 : fl ≤ res2.failed := by
          cases hok : r.ok <;> rw [hok] at h2 <;> simp at h2 <;> omega
        rw [← h]
        exact h3

/-- The hash list only grows over a batch run: the final list extends the
initial one. -/
theorem batchGo_hashList_ext (fp : Nat → Nat) (ls : List PerFileInput) :
    ∀ i hl s fl att res, batchGo fp none i ls hl s fl att = .ok res →
      ∃ ext, res.hashList = hl ++ ext := by
  induction ls with
  | nil =>
    intro i hl s fl att res h
    simp only [batchGo, Except.ok.injEq] at h
    exact ⟨[], by rw [← h]; simp⟩
  | cons inp rest ih =>
    intro i hl s fl att res h
    cases hh : hash_and_compress fp inp hl with
    | error e =>
      rw [batchGo_none_cons_err fp i inp rest hl s fl att e hh] at h
      cases h
    | ok r =>
      rw [batchGo_none_cons_ok fp i inp rest hl s fl att r hh] at h
      cases hb : batchGo fp none (i + 1) rest r.hashList
          (if r.ok then s + 1 else s) (if r.ok then fl else fl + 1)
          (if r.attempted then att + 1 else att) with
      | error e => rw [hb] at h; simp [consFile] at h
      | ok res2 =>
        rw [hb] at h
        simp only [consFile, Except.ok.injEq] at h
        obtain ⟨ext2, he2⟩ := ih (i + 1) r.hashList _ _ _ res2 hb
        obtain ⟨h1, h2⟩ := hac_spec fp inp hl r hh
        have hr : ∃ ext1, r.hashList = hl ++ ext1 := by
          cases hok : r.ok with
          | false => exact ⟨[], by rw [h1 hok]; simp⟩
          | true =>
            obtain ⟨f, -, hca | hca⟩ := h2 hok
            · exact ⟨[], by rw [hca.2]; simp⟩
            · exact ⟨[fp f.content], hca⟩
        obtain ⟨ext1, he1⟩ := hr
        refine ⟨ext1 ++ ext2, ?_⟩
        have hres : res.hashList = res2.hashList := by rw [← h]
        rw [hres, he2, he1, List.append_assoc]

/-- On success `hash_and_compress` leaves a file at the path whose
fingerprint is in the updated hash list. -/
theorem hac_ok_mem (fp : Nat → Nat) (inp : PerFileInput) (hl : List Nat)
    (r : FileRes) (h : hash_and_compress fp inp hl = .ok r)
    (hok : r.ok = true) :
    ∃ f, r.file = some f ∧ fp f.content ∈ r.hashList := by
  obtain ⟨-, h2⟩ := hac_spec fp inp hl r h
  obtain ⟨f, hf, hca | hca⟩ := h2 hok
  · exact ⟨f, hf, hca.2 ▸ hca.1⟩
  · exact ⟨f, hf, by rw [hca]; simp⟩

/-- After a batch run with no failures, every candidate's path holds a
file whose fingerprint is in the final hash list. -/
theorem batchGo_success_mem (fp : Nat → Nat) (ls : List PerFileInput) :
    ∀ i hl s fl att res, batchGo fp none i ls hl s fl att = .ok res →
      res.failed = fl →
      ∀ x ∈ res.files, ∃ f, x = some f ∧ fp f.content ∈ res.hashList := by
  induction ls with
  | nil =>
    intro i hl s fl att res h _
    simp only [batchGo, Except.ok.injEq] at h
    rw [← h]
    simp
  | cons inp rest ih =>
    intro i hl s fl att res h hfl
    cases hh : hash_and_compress fp inp hl with
    | error e =>
      rw [batchGo_none_cons_err fp i inp rest hl s fl att e hh] at h
      cases h
    | ok r =>
      rw [batchGo_none_cons_ok fp i inp rest hl s fl att r hh] at h
      cases hb : batchGo fp none (i + 1) rest r.hashList
          (if r.ok then s + 1 else s) (if r.ok then fl else fl + 1)
          (if r.attempted then att + 1 else att) with
      | error e => rw [hb] at h; simp [consFile] at h
      | ok res2 =>
        rw [hb] at h
        simp only [consFile, Except.ok.injEq] at h
        have hfl2 : res2.failed = fl := by rw [← h] at hfl; exact hfl
        have hle := batchGo_failed_le fp rest (i + 1) r.hashList
          (if r.ok then s + 1 else s) (if r.ok then fl else fl + 1)
          (if r.attempted then att + 1 else att) res2 hb
        have hok : r.ok = true := by
          cases hok2 : r.ok with
          | true => rfl
          | false => rw [hok2] at hle; simp at hle; omega
        rw [hok] at hb
        simp only [eq_self_iff_true, if_true] at hb
        obtain ⟨ext2, he2⟩ := batchGo_hashList_ext fp rest (i + 1)
          r.hashList _ _ _ res2 hb
        have hres2 : res.hashList = res2.hashList := by rw [← h]
        intro x hx
        rw [← h] at hx
        have hx2 : x = r.file ∨ x ∈ res2.files := List.mem_cons.mp hx
        rcases hx2 with hx2 | hx2
        · obtain ⟨f, hf, hmem⟩ := hac_ok_mem fp inp hl r hh hok
          refine ⟨f, hx2 ▸ hf, ?_⟩
          rw [hres2, he2]
          exact List.mem_append_left _ hmem
        · obtain ⟨f, hf, hmem⟩ := ih (i + 1) r.hashList _ _ _ res2 hb hfl2
            x hx2
          refine ⟨f, hf, ?_⟩
          rw [hres2]
          exact hmem

/-- A batch over candidates whose fingerprints are all already recorded
performs only skips: every file is untouched, counted as a success, the
hash list is unchanged, nothing is attempted, and the run completes. -/
theorem batchGo_all_skip (fp : Nat → Nat) (ls : List PerFileInput) :
    ∀ i hl s fl att,
      (∀ inp ∈ ls, ∃ f, inp.file = some f ∧ fp f.content ∈ hl) →
      batchGo fp none i ls hl s fl att =
        .ok ⟨ls.map (·.file), hl, s + ls.length, fl, att, .done⟩ := by
  induction ls with
  | nil => intro i hl s fl att _; simp [batchGo]
  | cons inp rest ih =>
    intro i hl s fl att hall
    obtain ⟨f, hf, hmem⟩ := hall inp (List.mem_cons_self _ _)
    rw [batchGo_none_cons_ok fp i inp rest hl s fl att _
      (hac_skip fp inp hl f hf hmem)]
    show consFile (some f) (batchGo fp none (i + 1) rest hl (s + 1) fl att)
      = _
    rw [ih (i + 1) hl (s + 1) fl att
      (fun p hp => hall p (List.mem_cons_of_mem _ hp))]
    simp only [consFile, Except.ok.injEq, List.map_cons, List.length_cons]
    rw [← hf]
    congr 1
    omega

/-- C6: running the batch twice on an unchanged directory performs zero
transcodes the second time: when the first run reports no failures, every
file then at a candidate's path has its fingerprint in the resulting hash
list, so a second run over those files (starting from that hash list)
skips every one of them before any probe or transcode — every file counts
as a success, nothing is attempted, and files and hash list are
unchanged. -/
theorem c6_second_run_skips (fp : Nat → Nat)
    (files1 files2 : List PerFileInput) (hl : List Nat) (r1 : BatchRes)
    (h1 : process_daemon fp files1 hl none = .ok r1)
    (hfail : r1.failed = 0)
    (hsame : files2.map (·.file) = r1.files) :
    process_daemon fp files2 r1.hashList none =
      .ok ⟨r1.files, r1.hashList, files2.length, 0, 0, .done⟩ := by
  have hmem : ∀ inp ∈ files2, ∃ f, inp.file = some f ∧
      fp f.content ∈ r1.hashList := by
    intro inp hin
    have hx : inp.file ∈ r1.files := hsame ▸ List.mem_map_of_mem _ hin
    exact batchGo_success_mem fp files1 0 hl 0 0 0 r1 h1 hfail inp.file hx
  have hrun := batchGo_all_skip fp files2 0 r1.hashList 0 0 0 hmem
  unfold process_daemon
  rw [hrun, hsame]
  simp

/-- Witness for C6: one file of size 1 000 000 is compressed to size 2000
and replaced in run one; the second run over the now-compressed file skips
it (zero attempts, success counted). -/
theorem c6_second_run_skips_witness :
    process_daemon id [⟨some ⟨7, 1000000, 0, 0⟩, .exitZero ⟨8, 2000, 9, 9⟩⟩]
        [] none = .ok ⟨[some ⟨8, 2000, 0, 0⟩], [8], 1, 0, 1, .done⟩ ∧
    (0 : Nat) = 0 ∧
    ([⟨some ⟨8, 2000, 0, 0⟩, .noStream⟩] : List PerFileInput).map (·.file) =
      [some ⟨8, 2000, 0, 0⟩] ∧
    process_daemon id [⟨some ⟨8, 2000, 0, 0⟩, .noStream⟩] [8] none =
      .ok ⟨[some ⟨8, 2000, 0, 0⟩], [8], 1, 0, 0, .done⟩ := by
  have h1 : process_daemon id
      [⟨some ⟨7, 1000000, 0, 0⟩, .exitZero ⟨8, 2000, 9, 9⟩⟩] [] none =
      .ok ⟨[some ⟨8, 2000, 0, 0⟩], [8], 1, 0, 1, .done⟩ := by rfl
  refine ⟨h1, rfl, by rfl, ?_⟩
  exact c6_second_run_skips id _ _ [] _ h1 rfl rfl

/-- C7: every per-file error — source file vanished before fingerprinting,
no video-stream metadata, non-zero transcoder exit, or implausibly small
output — is caught locally: the file is counted as a failure and the batch
continues with the next file; only a missing prober/transcoder executable
propagates out of the per-file pipeline and halts the batch. -/
theorem c7_error_containment (fp : Nat → Nat) (inp : PerFileInput)
    (rest : List PerFileInput) (i : Nat) (hl : List Nat) (s fl att : Nat) :
    (inp.file = none →
      batchGo fp none i (inp :: rest) hl s fl att =
        consFile none (batchGo fp none (i + 1) rest hl s (fl + 1) att)) ∧
    (∀ f, inp.file = some f → fp f.content ∉ hl →
      (perFileError inp.outcome →
        batchGo fp none i (inp :: rest) hl s fl att =
          consFile (some f)
            (batchGo fp none (i + 1) rest hl s (fl + 1) (att + 1))) ∧
      (toolMissing inp.outcome →
        ∃ e, batchGo fp none i (inp :: rest) hl s fl att = .error e)) := by
  refine ⟨?_, ?_⟩
  · intro hnone
    rw [batchGo_none_cons_ok fp i inp rest hl s fl att _
      (hac_vanished fp inp hl hnone)]
    rfl
  · intro f hf hnm
    refine ⟨?_, ?_⟩
    · intro herr
      rw [batchGo_none_cons_ok fp i inp rest hl s fl att _
        (hac_perFileError fp inp hl f hf hnm herr)]
      rfl
    · intro htm
      obtain ⟨e, he⟩ := hac_toolMissing fp inp hl f hf hnm htm
      exact ⟨e, batchGo_none_cons_err fp i inp rest hl s fl att e he⟩

/-- Witness for C7: a file with no video-stream metadata is counted as a
failure and the batch continues (here: the empty remainder completes). -/
theorem c7_error_containment_witness :
    ((⟨some ⟨1, 50, 0, 0⟩, .noStream⟩ : PerFileInput).file =
      some ⟨1, 50, 0, 0⟩) ∧
    (id (1 : Nat) ∉ ([] : List Nat)) ∧ perFileError .noStream ∧
    batchGo id none 0 [⟨some ⟨1, 50, 0, 0⟩, .noStream⟩] [] 0 0 0 =
      consFile (some ⟨1, 50, 0, 0⟩) (batchGo id none 1 [] [] 0 1 1) :=
  ⟨rfl, by decide, Or.inl rfl,
   ((c7_error_containment id ⟨some ⟨1, 50, 0, 0⟩, .noStream⟩ [] 0 [] 0 0
      0).2 ⟨1, 50, 0, 0⟩ rfl (by decide)).1 (Or.inl rfl)⟩

/-- Variant of `batchGo_stop_cons` when the per-file pipeline raised. -/
theorem batchGo_stop_cons_err (fp : Nat → Nat) (i : Nat)
    (inp : PerFileInput) (rest : List PerFileInput) (hl : List Nat)
    (s fl att : Nat) (e : String)
    (hh : hash_and_compress fp ⟨inp.file, terminateOutcome inp.outcome⟩ hl =
      .error e) :
    batchGo fp (some i) i (inp :: rest) hl s fl att = .error e := by
  rw [batchGo_stop_cons, hh]

/-- Variant of `batchGo_stop_cons` when the per-file pipeline returned. -/
theorem batchGo_stop_cons_ok (fp : Nat → Nat) (i : Nat)
    (inp : PerFileInput) (rest : List PerFileInput) (hl : List Nat)
    (s fl att : Nat) (r : FileRes)
    (hh : hash_and_compress fp ⟨inp.file, terminateOutcome inp.outcome⟩ hl =
      .ok r) :
    batchGo fp (some i) i (inp :: rest) hl s fl att =
      .ok ⟨r.file :: rest.map (·.file), r.hashList,
           (if r.ok then s + 1 else s), (if r.ok then fl else fl + 1),
           (if r.attempted then att + 1 else att), .aborted⟩ := by
  rw [batchGo_stop_cons, hh]

/-- A pipeline run on a terminated outcome leaves the file at the path
untouched, and fails whenever a compression was actually in flight (the
file exists and its fingerprint was not yet recorded). -/
theorem hac_stop (fp : Nat → Nat) (inp : PerFileInput) (hl : List Nat)
    (r : FileRes)
    (h : hash_and_compress fp ⟨inp.file, terminateOutcome inp.outcome⟩ hl =
      .ok r) :
    r.file = inp.file ∧
    (∀ f, inp.file = some f → fp f.content ∉ hl → r.ok = false) := by
  cases hfile : inp.file with
  | none =>
    rw [hac_vanished fp ⟨inp.file, terminateOutcome inp.outcome⟩ hl
      hfile] at h
    cases h
    exact ⟨rfl, fun f hf _ => by cases hf⟩
  | some f =>
    by_cases hmem : fp f.content ∈ hl
    · rw [hac_skip fp ⟨inp.file, terminateOutcome inp.outcome⟩ hl f hfile
        hmem] at h
      cases h
      refine ⟨rfl, fun f2 hf2 hnm => ?_⟩
      cases hf2
      exact absurd hmem hnm
    · have hsplit : perFileError (terminateOutcome inp.outcome) ∨
          toolMissing (terminateOutcome inp.outcome) := by
        cases inp.outcome <;>
          simp [terminateOutcome, perFileError, toolMissing]
      rcases hsplit with herr | htm
      · rw [hac_perFileError fp ⟨inp.file, terminateOutcome inp.outcome⟩ hl
          f hfile hmem herr] at h
        cases h
        exact ⟨rfl, fun _ _ _ => rfl⟩
      · obtain ⟨e, he⟩ := hac_toolMissing fp
          ⟨inp.file, terminateOutcome inp.outcome⟩ hl f hfile hmem htm
        rw [he] at h
        cases h

/-- C8: when the stop flag becomes set while a file is being processed,
the in-flight transcode is terminated, the final status is `aborted`, the
in-flight file's path and all later candidates are left untouched, at most
the in-flight file is ever attempted, and whenever a compression was in
flight (file present, fingerprint unrecorded) the file is counted as a
failure. -/
theorem c8_stop_aborts (fp : Nat → Nat) (i : Nat) (inp : PerFileInput)
    (rest : List PerFileInput) (hl : List Nat) (s fl att : Nat)
    (res : BatchRes)
    (h : batchGo fp (some i) i (inp :: rest) hl s fl att = .ok res) :
    res.status = .aborted ∧
    res.files = inp.file :: rest.map (·.file) ∧
    res.attempts ≤ att + 1 ∧
    (∀ f, inp.file = some f → fp f.content ∉ hl →
      res.failed = fl + 1 ∧ res.success = s) := by
  cases hh : hash_and_compress fp ⟨inp.file, terminateOutcome inp.outcome⟩
      hl with
  | error e =>
    rw [batchGo_stop_cons_err fp i inp rest hl s fl att e hh] at h
    cases h
  | ok r =>
    obtain ⟨hrfile, hrok⟩ := hac_stop fp inp hl r hh
    rw [batchGo_stop_cons_ok fp i inp rest hl s fl att r hh] at h
    cases h
    refine ⟨rfl, by rw [hrfile], ?_, ?_⟩
    · show (if r.attempted then att + 1 else att) ≤ att + 1
      cases r.attempted <;> simp
    · intro f hf hnm
      have hok := hrok f hf hnm
      constructor
      · show (if r.ok then fl else fl + 1) = fl + 1
        rw [hok]
        simp
      · show (if r.ok then s + 1 else s) = s
        rw [hok]
        simp

/-- Witness for C8: stop is requested during the first of two files; its
clean-exit transcode is terminated and counted as a failure, the second
file is never started, and the batch reports `aborted`. -/
theorem c8_stop_aborts_witness :
    batchGo id (some 0) 0
        [⟨some ⟨3, 1000000, 0, 0⟩, .exitZero ⟨4, 2000, 0, 0⟩⟩,
         ⟨some ⟨9, 5, 0, 0⟩, .noStream⟩] [] 0 0 0 =
      .ok ⟨[some ⟨3, 1000000, 0, 0⟩, some ⟨9, 5, 0, 0⟩], [], 0, 1, 1,
           .aborted⟩ ∧
    (BatchStatus.aborted = .aborted ∧
     ([some ⟨3, 1000000, 0, 0⟩, some ⟨9, 5, 0, 0⟩] : List (Option File)) =
       some ⟨3, 1000000, 0, 0⟩ :: [some ⟨9, 5, 0, 0⟩] ∧
     (1 : Nat) ≤ 0 + 1 ∧
     (∀ f, (some ⟨3, 1000000, 0, 0⟩ : Option File) = some f →
        id f.content ∉ ([] : List Nat) → (1 : Nat) = 0 + 1 ∧ (0 : Nat) = 0)) := by
  have h : batchGo id (some 0) 0
      [⟨some ⟨3, 1000000, 0, 0⟩, .exitZero ⟨4, 2000, 0, 0⟩⟩,
       ⟨some ⟨9, 5, 0, 0⟩, .noStream⟩] [] 0 0 0 =
      .ok ⟨[some ⟨3, 1000000, 0, 0⟩, some ⟨9, 5, 0, 0⟩], [], 0, 1, 1,
           .aborted⟩ := by rfl
  exact ⟨h, c8_stop_aborts id 0 _ _ [] 0 0 0 _ h⟩
